import Mathlib

/-!
Shallow embedding of the ECS core of the repository: the type registry and
the entity component store of src/ecs/mod.rs, together with a model of the
scheduler contract of src/ecs/system.rs.  Rust panics are modelled as the
value none of an Option-typed result; Vec indexing out of bounds panics.
-/

namespace ECS

/-- Model of typeid.ConstTypeId: a distinct key per concrete Rust type. -/
abbrev ConstTypeId := Nat

/-- A registration record of the inventory list.  ComponentRegistration and
ResourceRegistration in src/ecs/mod.rs carry the same two fields: the
ConstTypeId of the registered type and its human-readable name. -/
structure Registration where
  type_id : ConstTypeId
  name : String
  deriving DecidableEq

/-- Byte-lexicographic strict comparison of names, the Ord instance of str
that sort_by_key uses on the name field. -/
def charsLt : List Char → List Char → Bool
  | [], [] => false
  | [], _ :: _ => true
  | _ :: _, [] => false
  | a :: as, b :: bs =>
    if a.toNat < b.toNat then true
    else if b.toNat < a.toNat then false
    else charsLt as bs

/-- Strict name order on strings, via their character data. -/
def nameLt (a b : String) : Bool := charsLt a.data b.data

/-- Stable insertion for sorting by name: an entry is placed in front of the
first entry whose name is not strictly below it, which matches the stable
sort_by_key of Vec on the name key. -/
def insertByName (x : Registration) : List Registration → List Registration
  | [] => [x]
  | y :: ys =>
    if nameLt y.name x.name then y :: insertByName x ys
    else x :: y :: ys

/-- entries.sort_by_key on the name field (a stable sort). -/
def sortByName : List Registration → List Registration
  | [] => []
  | x :: xs => insertByName x (sortByName xs)

/-- entries.into_iter().enumerate().map with (r.type_id, i), counting from
the given index. -/
def idPairs : Nat → List Registration → List (ConstTypeId × Nat)
  | _, [] => []
  | i, r :: rs => (r.type_id, i) :: idPairs (i + 1) rs

/-- Lookup in the HashMap collected from a pair list; with duplicate keys the
later insertion wins, as when an iterator of pairs is collected into a
HashMap. -/
def hmLookup : List (ConstTypeId × Nat) → ConstTypeId → Option Nat
  | [], _ => none
  | p :: ps, k =>
    match hmLookup ps k with
    | some v => some v
    | none => if k = p.1 then some p.2 else none

/-- HashMap::len of the collected map: the number of distinct keys. -/
def hmSize (ps : List (ConstTypeId × Nat)) : Nat := (ps.map Prod.fst).dedup.length

/-- The finalized registry snapshot cached inside the OnceLock. -/
structure RegistryMap where
  pairs : List (ConstTypeId × Nat)
  deriving DecidableEq

/-- HashMap::get on the snapshot. -/
def RegistryMap.get (m : RegistryMap) (k : ConstTypeId) : Option Nat := hmLookup m.pairs k

/-- HashMap::len on the snapshot. -/
def RegistryMap.size (m : RegistryMap) : Nat := hmSize m.pairs

/-- build_component_ids: collect the component registration inventory, sort
the entries by name, and map each type id to its 0-based position in that
sorted order. -/
def build_component_ids (entries : List Registration) : RegistryMap :=
  ⟨idPairs 0 (sortByName entries)⟩

/-- build_resource_ids: the same computation over the resource registration
inventory. -/
def build_resource_ids (entries : List Registration) : RegistryMap :=
  ⟨idPairs 0 (sortByName entries)⟩

/-- State of a OnceLock cell such as COMPONENT_IDS or RESOURCE_IDS: none
before initialization, some of the cached map after. -/
abbrev LockState := Option RegistryMap

/-- OnceLock::get_or_init: returns the cached map, building and caching it on
first use; the second projection is the state of the cell afterwards. -/
def getOrInit (st : LockState) (build : RegistryMap) : RegistryMap × LockState :=
  match st with
  | some m => (m, some m)
  | none => (build, some build)

/-- get_component_id of a type with the given ConstTypeId, as a transformer
of the OnceLock cell; the first projection is none when the expect call
panics because the type is not in the snapshot. -/
def get_component_id (st : LockState) (entries : List Registration)
    (key : ConstTypeId) : Option Nat × LockState :=
  let r := getOrInit st (build_component_ids entries)
  (r.1.get key, r.2)

/-- get_resource_id, identically over the resource inventory and its cell. -/
def get_resource_id (st : LockState) (entries : List Registration)
    (key : ConstTypeId) : Option Nat × LockState :=
  let r := getOrInit st (build_resource_ids entries)
  (r.1.get key, r.2)

/-- A boxed dyn Component value: the ConstTypeId of the concrete type inside
the box (what the Any downcast inspects) and its payload. -/
structure DynComponent where
  tyKey : ConstTypeId
  value : Nat
  deriving DecidableEq

/-- Component::get_type_id of a derive-macro component: get_component_id of
the concrete type, looked up in the finalized registry snapshot; none models
the panic on an unregistered type. -/
def typeIdOf (m : RegistryMap) (c : DynComponent) : Option Nat := m.get c.tyKey

/-- An entity: its id and the components vector of optional boxed values. -/
structure Entity where
  id : Nat
  components : List (Option DynComponent)
  deriving DecidableEq

/-- Vec::with_capacity(n): allocates capacity for n elements, but the vector
it returns has length 0. -/
def vecWithCapacity (_ : Nat) : List (Option DynComponent) := []

/-- Entity::new: COMPONENT_IDS.get().unwrap() panics (none) while the lock is
uninitialized; otherwise the components field is Vec::with_capacity of the
snapshot's len. -/
def Entity.new (st : LockState) (id : Nat) : Option Entity :=
  match st with
  | none => none
  | some m => some { id := id, components := vecWithCapacity m.size }

/-- Entity::set_component: the index assignment self.components[id] =
component, which panics (none) when id is out of bounds. -/
def Entity.setComponent (e : Entity) (c : Option DynComponent) (id : Nat) :
    Option Entity :=
  if id < e.components.length then
    some { e with components := e.components.set id c }
  else none

/-- Entity::add_component: reads the component's own type id, then fills the
slot only if it is empty, returning Some(()) on success and None when the
slot is occupied; indexing an out-of-bounds slot panics (outer none). -/
def Entity.addComponent (m : RegistryMap) (e : Entity) (c : DynComponent) :
    Option (Entity × Option Unit) :=
  match typeIdOf m c with
  | none => none
  | some id =>
    match e.components.get? id with
    | none => none
    | some slot =>
      match slot with
      | none => some ({ e with components := e.components.set id (some c) }, some ())
      | some _ => some (e, none)

/-- Any::downcast_ref to the type with the given ConstTypeId: succeeds exactly
when the dynamic type of the boxed value is that type. -/
def downcast (tKey : ConstTypeId) (c : DynComponent) : Option Nat :=
  if c.tyKey = tKey then some c.value else none

/-- Entity::get_component of the type with the given ConstTypeId: registry
lookup (panics if unregistered), slot indexing (panics if out of bounds), and
a downcast of the occupant if any. -/
def Entity.getComponent (m : RegistryMap) (tKey : ConstTypeId) (e : Entity) :
    Option (Option Nat) :=
  match m.get tKey with
  | none => none
  | some id =>
    match e.components.get? id with
    | none => none
    | some slot => some (slot.bind (downcast tKey))

/-- Entity::get_component_mut: the lookup follows the same path as
get_component, with downcast_mut in place of downcast_ref. -/
def Entity.getComponentMut (m : RegistryMap) (tKey : ConstTypeId) (e : Entity) :
    Option (Option Nat) :=
  match m.get tKey with
  | none => none
  | some id =>
    match e.components.get? id with
    | none => none
    | some slot => some (slot.bind (downcast tKey))

/-- Entity::remove_component: self.components[id].take(), yielding the updated
entity and the removed occupant; indexing out of bounds panics. -/
def Entity.removeComponent (m : RegistryMap) (tKey : ConstTypeId) (e : Entity) :
    Option (Entity × Option DynComponent) :=
  match m.get tKey with
  | none => none
  | some id =>
    match e.components.get? id with
    | none => none
    | some slot => some ({ e with components := e.components.set id none }, slot)

/-- Entity::has_component: self.components[id].is_some(); indexing out of
bounds panics. -/
def Entity.hasComponent (m : RegistryMap) (tKey : ConstTypeId) (e : Entity) :
    Option Bool :=
  match m.get tKey with
  | none => none
  | some id =>
    match e.components.get? id with
    | none => none
    | some slot => some slot.isSome

/-- ConstTypeId of the Position type of the spec scenario. -/
def posKey : ConstTypeId := 0

/-- ConstTypeId of the Velocity type of the spec scenario. -/
def velKey : ConstTypeId := 1

/-- The component registration inventory of the spec scenario: exactly
Position and Velocity registered. -/
def posvelEntries : List Registration := [⟨posKey, "Position"⟩, ⟨velKey, "Velocity"⟩]

/-- Modelled from the spec: the scheduler and task modules declared in
src/ecs/mod.rs (scheduler.rs, task.rs) are missing from the sources, and
System::run in src/ecs/system.rs is only a trait method.  Following sections
4.5 and 8 of the spec, a system is its declared read and write footprint over
component and resource slots together with the update it computes; executing
it rewrites exactly the slots of its write-set. -/
structure SystemModel where
  reads : Finset Nat
  writes : Finset Nat
  impl : (Nat → Nat) → Nat → Nat

/-- One system executing alone against the world: slots of its write-set
take the computed values, every other slot is untouched. -/
def runSystem (s : SystemModel) (w : Nat → Nat) : Nat → Nat :=
  fun i => if i ∈ s.writes then s.impl w i else w i

/-- A system with an honestly declared footprint computes its update from the
slots of its read and write sets only. -/
def Respects (s : SystemModel) : Prop :=
  ∀ w1 w2, (∀ i, i ∈ s.reads ∪ s.writes → w1 i = w2 i) → ∀ i, s.impl w1 i = s.impl w2 i

/-- Concurrent execution of two systems with disjoint write-sets within one
tick: both compute from the world as it was when the tick started, and their
writes are merged. -/
def runConcurrent (s1 s2 : SystemModel) (w : Nat → Nat) : Nat → Nat :=
  fun i =>
    if i ∈ s1.writes then s1.impl w i
    else if i ∈ s2.writes then s2.impl w i
    else w i

/-! Helper lemmas about the embedding. -/

theorem charToNat_inj {a b : Char} (h : a.toNat = b.toNat) : a = b := by
  cases a
  cases b
  simp only [Char.toNat] at h
  congr 1
  exact UInt32.ext h

theorem charsLt_asymm (a : List Char) : ∀ b, charsLt a b = true → charsLt b a = false := by
  induction a with
  | nil =>
    intro b h
    cases b with
    | nil => simp [charsLt] at h
    | cons y ys => simp [charsLt]
  | cons x xs ih =>
    intro b h
    cases b with
    | nil => simp [charsLt] at h
    | cons y ys =>
      by_cases hxy : x.toNat < y.toNat
      · simp [charsLt, hxy, show ¬ y.toNat < x.toNat by omega]
      · by_cases hyx : y.toNat < x.toNat
        · simp [charsLt, hxy, hyx] at h
        · simp only [charsLt, hxy, hyx, if_false] at h ⊢
          exact ih ys h

theorem charsLt_none_trans (a : List Char) :
    ∀ b c, charsLt a b = false → charsLt b c = false → charsLt a c = false := by
  induction a with
  | nil =>
    intro b c h1 h2
    cases b with
    | nil => exact h2
    | cons y ys => simp [charsLt] at h1
  | cons x xs ih =>
    intro b c h1 h2
    cases b with
    | nil =>
      cases c with
      | nil => simp [charsLt]
      | cons z zs => simp [charsLt] at h2
    | cons y ys =>
      cases c with
      | nil => simp [charsLt]
      | cons z zs =>
        by_cases hxy : x.toNat < y.toNat
        · simp [charsLt, hxy] at h1
        · by_cases hyz : y.toNat < z.toNat
          · simp [charsLt, hyz, show ¬ z.toNat < y.toNat by omega] at h2
          · have hxz : ¬ x.toNat < z.toNat := by omega
            by_cases hzx : z.toNat < x.toNat
            · simp [charsLt, hxz, hzx]
            · simp only [charsLt, hxy, show ¬ y.toNat < x.toNat by omega, if_false] at h1
              simp only [charsLt, hyz, show ¬ z.toNat < y.toNat by omega, if_false] at h2
              simp only [charsLt, hxz, hzx, if_false]
              exact ih ys zs h1 h2

theorem charsLt_eq (a : List Char) :
    ∀ b, charsLt a b = false → charsLt b a = false → a = b := by
  induction a with
  | nil =>
    intro b h1 _
    cases b with
    | nil => rfl
    | cons y ys => simp [charsLt] at h1
  | cons x xs ih =>
    intro b h1 h2
    cases b with
    | nil => simp [charsLt] at h2
    | cons y ys =>
      by_cases hxy : x.toNat < y.toNat
      · simp [charsLt, hxy] at h1
      · by_cases hyx : y.toNat < x.toNat
        · simp [charsLt, hyx] at h2
        · simp only [charsLt, hxy, hyx, if_false] at h1 h2
          rw [charToNat_inj (show x.toNat = y.toNat by omega), ih ys h1 h2]

theorem nameLt_eq {a b : String} (h1 : nameLt a b = false) (h2 : nameLt b a = false) :
    a = b := by
  have hd : a.data = b.data := charsLt_eq a.data b.data h1 h2
  cases a
  cases b
  simp_all

theorem get?_set_self {α : Type} (l : List α) (i : Nat) (a : α) (h : i < l.length) :
    (l.set i a).get? i = some a := by
  induction l generalizing i with
  | nil => simp at h
  | cons x xs ih =>
    cases i with
    | zero => rfl
    | succ n =>
      simp only [List.set, List.get?]
      exact ih n (Nat.lt_of_succ_lt_succ h)

theorem getElem?_set_self {α : Type} (l : List α) (i : Nat) (a : α) (h : i < l.length) :
    (l.set i a)[i]? = some a := by
  rw [← List.get?_eq_getElem?]
  exact get?_set_self l i a h

theorem hmLookup_eq_none_iff (ps : List (ConstTypeId × Nat)) (k : ConstTypeId) :
    hmLookup ps k = none ↔ k ∉ ps.map Prod.fst := by
  induction ps with
  | nil => simp [hmLookup]
  | cons p ps ih =>
    simp only [hmLookup, List.map_cons, List.mem_cons]
    cases h : hmLookup ps k with
    | some v =>
      have hk : k ∈ List.map Prod.fst ps := by
        by_contra hk
        rw [ih.mpr hk] at h
        cases h
      simp [hk]
    | none =>
      have hk : k ∉ List.map Prod.fst ps := ih.mp h
      by_cases he : k = p.1
      · simp [he, hk]
      · simp [he, hk]

theorem hmLookup_get_of_nodup (ps : List (ConstTypeId × Nat))
    (h : (ps.map Prod.fst).Nodup) (j : Nat) (hj : j < ps.length) :
    hmLookup ps (ps.get ⟨j, hj⟩).1 = some (ps.get ⟨j, hj⟩).2 := by
  induction ps generalizing j with
  | nil => simp at hj
  | cons p ps ih =>
    simp only [List.map_cons, List.nodup_cons] at h
    cases j with
    | zero =>
      show hmLookup (p :: ps) p.1 = some p.2
      have hnone : hmLookup ps p.1 = none := (hmLookup_eq_none_iff ps p.1).mpr h.1
      simp [hmLookup, hnone]
    | succ n =>
      have hn : n < ps.length := Nat.lt_of_succ_lt_succ hj
      have hrec := ih h.2 n hn
      show hmLookup (p :: ps) (ps.get ⟨n, hn⟩).1 = some (ps.get ⟨n, hn⟩).2
      simp only [List.get_eq_getElem] at hrec ⊢
      simp [hmLookup, hrec]

theorem idPairs_map_fst (n : Nat) (l : List Registration) :
    (idPairs n l).map Prod.fst = l.map Registration.type_id := by
  induction l generalizing n with
  | nil => rfl
  | cons r rs ih => simp [idPairs, ih]

theorem idPairs_length (n : Nat) (l : List Registration) :
    (idPairs n l).length = l.length := by
  induction l generalizing n with
  | nil => rfl
  | cons r rs ih => simp [idPairs, ih]

theorem idPairs_get (n : Nat) (l : List Registration) (j : Nat) (hj : j < l.length)
    (hj2 : j < (idPairs n l).length) :
    (idPairs n l).get ⟨j, hj2⟩ = ((l.get ⟨j, hj⟩).type_id, n + j) := by
  induction l generalizing n j with
  | nil => simp at hj
  | cons r rs ih =>
    cases j with
    | zero => simp [idPairs]
    | succ k =>
      have hk : k < rs.length := Nat.lt_of_succ_lt_succ hj
      have hk2 : k < (idPairs (n + 1) rs).length := by
        rw [idPairs_length]
        exact hk
      simp only [idPairs, List.get_cons_succ]
      rw [ih (n + 1) k hk hk2]
      congr 1
      omega

/-- Nonstrict name order on registrations: a is not strictly above b. -/
def regLe (a b : Registration) : Prop := nameLt b.name a.name = false

/-- Strict name order on registrations. -/
def regLt (a b : Registration) : Prop := nameLt a.name b.name = true

theorem insertByName_perm (x : Registration) (l : List Registration) :
    (insertByName x l).Perm (x :: l) := by
  induction l with
  | nil => exact List.Perm.refl _
  | cons y ys ih =>
    by_cases h : nameLt y.name x.name
    · simp only [insertByName, h, if_true]
      exact (ih.cons y).trans (List.Perm.swap x y ys)
    · simp only [insertByName, h, if_false]
      exact List.Perm.refl _

theorem sortByName_perm (l : List Registration) : (sortByName l).Perm l := by
  induction l with
  | nil => exact List.Perm.refl _
  | cons x xs ih =>
    exact (insertByName_perm x (sortByName xs)).trans (ih.cons x)

theorem insertByName_sorted (x : Registration) (l : List Registration)
    (h : l.Sorted regLe) : (insertByName x l).Sorted regLe := by
  induction l with
  | nil => simp [insertByName]
  | cons y ys ih =>
    rw [List.sorted_cons] at h
    by_cases hc : nameLt y.name x.name
    · simp only [insertByName, hc, if_true]
      rw [List.sorted_cons]
      refine ⟨?_, ih h.2⟩
      intro b hb
      rcases List.mem_cons.mp ((insertByName_perm x ys).mem_iff.mp hb) with hbx | hby
      · subst hbx
        exact charsLt_asymm _ _ hc
      · exact h.1 b hby
    · have hc2 : nameLt y.name x.name = false := by
        cases hv : nameLt y.name x.name with
        | true => exact absurd hv hc
        | false => rfl
      simp only [insertByName, hc2, Bool.false_eq_true, if_false]
      rw [List.sorted_cons]
      refine ⟨?_, List.sorted_cons.mpr h⟩
      intro b hb
      rcases List.mem_cons.mp hb with hby | hbys
      · subst hby
        exact hc2
      · exact charsLt_none_trans _ _ _ (h.1 b hbys) hc2

theorem sortByName_sorted (l : List Registration) : (sortByName l).Sorted regLe := by
  induction l with
  | nil => simp [sortByName]
  | cons x xs ih => exact insertByName_sorted x (sortByName xs) ih

theorem sortByName_eq_of_perm (l1 l2 : List Registration) (hperm : l1.Perm l2)
    (hnames : (l1.map Registration.name).Nodup) :
    sortByName l1 = sortByName l2 := by
  have p1 := sortByName_perm l1
  have p2 := sortByName_perm l2
  have hp : (sortByName l1).Perm (sortByName l2) := p1.trans (hperm.trans p2.symm)
  have hn1 : ((sortByName l1).map Registration.name).Nodup :=
    ((p1.map Registration.name).nodup_iff).mpr hnames
  have hn2 : ((sortByName l2).map Registration.name).Nodup :=
    ((p2.map Registration.name).nodup_iff).mpr ((hperm.map Registration.name).nodup_iff.mp hnames)
  have hstrict : ∀ l : List Registration, l.Sorted regLe →
      ((l.map Registration.name).Nodup) → l.Sorted regLt := by
    intro l hs hn
    have hne : List.Pairwise (fun a b : Registration => a.name ≠ b.name) l :=
      List.pairwise_map.mp hn
    refine (hs.and hne).imp ?_
    intro a b hab
    cases hv : nameLt a.name b.name with
    | true => exact hv
    | false => exact absurd (nameLt_eq hv hab.1) hab.2
  have hs1 := hstrict _ (sortByName_sorted l1) hn1
  have hs2 := hstrict _ (sortByName_sorted l2) hn2
  haveI : IsAntisymm Registration regLt := by
    constructor
    intro a b hab hba
    have h2 : nameLt b.name a.name = false := charsLt_asymm _ _ hab
    rw [hba] at h2
    cases h2
  exact List.eq_of_perm_of_sorted hp hs1 hs2

theorem runSeq_eq_runConcurrent (s1 s2 : SystemModel)
    (hr2 : Respects s2)
    (h1 : s1.writes ∩ (s2.reads ∪ s2.writes) = ∅)
    (h2 : s2.writes ∩ (s1.reads ∪ s1.writes) = ∅) :
    (fun u => runSystem s2 (runSystem s1 u)) = runConcurrent s1 s2 := by
  have hd1 : ∀ j, j ∈ s1.writes → j ∉ s2.reads ∪ s2.writes := by
    intro j hj hmem
    have hin : j ∈ s1.writes ∩ (s2.reads ∪ s2.writes) := Finset.mem_inter.mpr ⟨hj, hmem⟩
    rw [h1] at hin
    exact absurd hin (Finset.not_mem_empty j)
  have hd2 : ∀ j, j ∈ s2.writes → j ∉ s1.reads ∪ s1.writes := by
    intro j hj hmem
    have hin : j ∈ s2.writes ∩ (s1.reads ∪ s1.writes) := Finset.mem_inter.mpr ⟨hj, hmem⟩
    rw [h2] at hin
    exact absurd hin (Finset.not_mem_empty j)
  funext w i
  by_cases hw2 : i ∈ s2.writes
  · have hni1 : i ∉ s1.writes := fun hh => (hd2 i hw2) (Finset.mem_union_right _ hh)
    show (if i ∈ s2.writes then s2.impl (runSystem s1 w) i else runSystem s1 w i) = _
    simp only [runConcurrent, hw2, if_true, hni1, if_false]
    apply hr2
    intro j hj
    have hjn : j ∉ s1.writes := fun hh => (hd1 j hh) hj
    simp [runSystem, hjn]
  · by_cases hw1 : i ∈ s1.writes
    · show (if i ∈ s2.writes then s2.impl (runSystem s1 w) i else runSystem s1 w i) = _
      simp [runConcurrent, runSystem, hw2, hw1]
    · show (if i ∈ s2.writes then s2.impl (runSystem s1 w) i else runSystem s1 w i) = _
      simp [runConcurrent, runSystem, hw2, hw1]

theorem runConcurrent_comm (s1 s2 : SystemModel)
    (hw : s1.writes ∩ s2.writes = ∅) :
    runConcurrent s1 s2 = runConcurrent s2 s1 := by
  funext w i
  by_cases hw1 : i ∈ s1.writes
  · have hni2 : i ∉ s2.writes := by
      intro hh
      have hin : i ∈ s1.writes ∩ s2.writes := Finset.mem_inter.mpr ⟨hw1, hh⟩
      rw [hw] at hin
      exact absurd hin (Finset.not_mem_empty i)
    simp [runConcurrent, hw1, hni2]
  · simp [runConcurrent, hw1]

/-! Claim theorems. -/

/-- C1: the claim says Entity::new yields a components array whose length
equals the number of registered component types.  The code instead builds the
vector with Vec::with_capacity, so its length is 0: with Position and
Velocity registered (finalized snapshot of size 2), the entity produced by
Entity::new has an empty components vector, and no registered component id is
an in-bounds index into it.  This contradicts the documented sparse-array
storage that every accessor of the same file relies on. -/
theorem c1_entity_new_components_empty :
    (Entity.new (some (build_component_ids posvelEntries)) 0).map
        (fun e => e.components.length) = some 0 ∧
    (build_component_ids posvelEntries).size = 2 ∧
    (build_component_ids posvelEntries).get posKey = some 0 := by
  decide

/-- C4: the id assigned to each registered type is its 0-based position in
the registration list sorted ascending by name, for components and resources
alike, whenever the registered type ids are pairwise distinct. -/
theorem c4_ids_are_sorted_positions (entries : List Registration)
    (h : (entries.map Registration.type_id).Nodup)
    (i : Nat) (hi : i < (sortByName entries).length) :
    (build_component_ids entries).get ((sortByName entries).get ⟨i, hi⟩).type_id = some i ∧
    (build_resource_ids entries).get ((sortByName entries).get ⟨i, hi⟩).type_id = some i := by
  have hkeys : ((idPairs 0 (sortByName entries)).map Prod.fst).Nodup := by
    rw [idPairs_map_fst]
    exact ((sortByName_perm entries).map Registration.type_id).nodup_iff.mpr h
  have hlen : i < (idPairs 0 (sortByName entries)).length := by
    rw [idPairs_length]
    exact hi
  have hmain := hmLookup_get_of_nodup _ hkeys i hlen
  rw [idPairs_get 0 _ i hi hlen] at hmain
  simp only [Nat.zero_add] at hmain
  exact ⟨hmain, hmain⟩

/-- C4 witness: with exactly Position and Velocity registered, Position
receives id 0 and Velocity receives id 1. -/
theorem c4_witness :
    (posvelEntries.map Registration.type_id).Nodup ∧
    (build_component_ids posvelEntries).get posKey = some 0 ∧
    (build_component_ids posvelEntries).get velKey = some 1 := by
  refine ⟨by decide, ?_, ?_⟩
  · have h := (c4_ids_are_sorted_positions posvelEntries (by decide) 0 (by decide)).1
    rwa [show ((sortByName posvelEntries).get ⟨0, by decide⟩).type_id = posKey by decide] at h
  · have h := (c4_ids_are_sorted_positions posvelEntries (by decide) 1 (by decide)).1
    rwa [show ((sortByName posvelEntries).get ⟨1, by decide⟩).type_id = velKey by decide] at h

/-- C5 counterexample: two distinct types that carry the same registration
name (the derive macro registers the bare identifier) registered in the two
discovery orders receive different ids, because the stable name sort keeps
discovery order among equal names; so id assignment is not invariant under
every permutation of the registration list. -/
theorem c5_duplicate_name_counterexample :
    [(⟨10, "A"⟩ : Registration), ⟨11, "A"⟩].Perm [⟨11, "A"⟩, ⟨10, "A"⟩] ∧
    (build_component_ids [⟨10, "A"⟩, ⟨11, "A"⟩]).get 10 ≠
      (build_component_ids [⟨11, "A"⟩, ⟨10, "A"⟩]).get 10 := by
  decide

/-- C5 amended: provided the registered names are pairwise distinct, building
the id assignment from any permutation of the registration list yields the
same TypeKey-to-id mapping; and repeating the id lookup within one process
returns the same id, the one-time build being idempotent. -/
theorem c5_sorted_determinism (l1 l2 : List Registration) (hperm : l1.Perm l2)
    (hnames : (l1.map Registration.name).Nodup) (k : ConstTypeId)
    (st : LockState) (entries : List Registration) :
    (build_component_ids l1).get k = (build_component_ids l2).get k ∧
    (get_component_id (get_component_id st entries k).2 entries k).1 =
      (get_component_id st entries k).1 := by
  constructor
  · show hmLookup (idPairs 0 (sortByName l1)) k = hmLookup (idPairs 0 (sortByName l2)) k
    rw [sortByName_eq_of_perm l1 l2 hperm hnames]
  · cases st with
    | none => rfl
    | some m => rfl

/-- C5 witness: a concrete permutation of the Position and Velocity
registrations yields the same mapping, and a repeated lookup returns the same
id. -/
theorem c5_witness :
    posvelEntries.Perm [⟨velKey, "Velocity"⟩, ⟨posKey, "Position"⟩] ∧
    (posvelEntries.map Registration.name).Nodup ∧
    (build_component_ids posvelEntries).get posKey =
      (build_component_ids [⟨velKey, "Velocity"⟩, ⟨posKey, "Position"⟩]).get posKey ∧
    (get_component_id (get_component_id none posvelEntries posKey).2 posvelEntries posKey).1 =
      (get_component_id none posvelEntries posKey).1 := by
  refine ⟨by decide, by decide, ?_, ?_⟩
  · exact (c5_sorted_determinism posvelEntries [⟨velKey, "Velocity"⟩, ⟨posKey, "Position"⟩]
      (by decide) (by decide) posKey none posvelEntries).1
  · exact (c5_sorted_determinism posvelEntries [⟨velKey, "Velocity"⟩, ⟨posKey, "Position"⟩]
      (by decide) (by decide) posKey none posvelEntries).2

/-- C6: get_component_id and get_resource_id fail fatally (the expect panic,
modelled as none) exactly when the requested type is not in the registration
list snapshotted at the one-time build, and return an id for every registered
type. -/
theorem c6_lookup_fails_iff_unregistered (entries : List Registration)
    (key : ConstTypeId) :
    ((get_component_id none entries key).1 = none ↔
      key ∉ entries.map Registration.type_id) ∧
    ((get_resource_id none entries key).1 = none ↔
      key ∉ entries.map Registration.type_id) := by
  have h1 := hmLookup_eq_none_iff (idPairs 0 (sortByName entries)) key
  rw [idPairs_map_fst] at h1
  have hmem : key ∈ (sortByName entries).map Registration.type_id ↔
      key ∈ entries.map Registration.type_id :=
    ((sortByName_perm entries).map Registration.type_id).mem_iff
  exact ⟨h1.trans (not_congr hmem), h1.trans (not_congr hmem)⟩

/-- C10: Entity::new reads the COMPONENT_IDS cell without initializing it, so
before any id lookup it panics on the unwrap even when every component type
is registered, whereas get_component_id in the same state performs the
one-time build and succeeds for any registered type. -/
theorem c10_entity_new_does_not_finalize (entries : List Registration)
    (key : ConstTypeId) (h : key ∈ entries.map Registration.type_id) (id : Nat) :
    Entity.new none id = none ∧ (get_component_id none entries key).1.isSome := by
  refine ⟨rfl, ?_⟩
  have h1 := hmLookup_eq_none_iff (idPairs 0 (sortByName entries)) key
  rw [idPairs_map_fst] at h1
  have hmem : key ∈ (sortByName entries).map Registration.type_id :=
    ((sortByName_perm entries).map Registration.type_id).mem_iff.mpr h
  have hne : hmLookup (idPairs 0 (sortByName entries)) key ≠ none := by
    intro hn
    exact (h1.mp hn) hmem
  exact Option.isSome_iff_ne_none.mpr hne

/-- C10 witness: with Position and Velocity registered but the lock untouched,
entity creation panics while the component-id lookup succeeds. -/
theorem c10_witness :
    posKey ∈ posvelEntries.map Registration.type_id ∧
    Entity.new none 0 = none ∧
    (get_component_id none posvelEntries posKey).1.isSome := by
  refine ⟨by decide, ?_, ?_⟩
  · exact (c10_entity_new_does_not_finalize posvelEntries posKey (by decide) 0).1
  · exact (c10_entity_new_does_not_finalize posvelEntries posKey (by decide) 0).2

/-- C7: the claim says the accessors return the explicit not-present outcome
and never panic on an entity created after finalization.  The code panics:
with Position and Velocity registered and finalized, the entity returned by
Entity::new has an empty components vector, so get_component, remove_component
and has_component for the registered type Position all index out of bounds
(the inner none) instead of reporting absence. -/
theorem c7_accessors_panic_on_fresh_entity :
    (build_component_ids posvelEntries).get posKey = some 0 ∧
    (Entity.new (some (build_component_ids posvelEntries)) 7).map
        (fun e => Entity.getComponent (build_component_ids posvelEntries) posKey e) =
      some none ∧
    (Entity.new (some (build_component_ids posvelEntries)) 7).map
        (fun e => Entity.getComponentMut (build_component_ids posvelEntries) posKey e) =
      some none ∧
    (Entity.new (some (build_component_ids posvelEntries)) 7).map
        (fun e => Entity.removeComponent (build_component_ids posvelEntries) posKey e) =
      some none ∧
    (Entity.new (some (build_component_ids posvelEntries)) 7).map
        (fun e => Entity.hasComponent (build_component_ids posvelEntries) posKey e) =
      some none := by
  decide

/-- C2: on an entity whose slot for a registered component type exists and is
empty, add_component of a value of that type succeeds, a following
get_component yields the value, remove_component then yields the added value
back, and a subsequent has_component reports false. -/
theorem c2_add_get_remove_roundtrip (m : RegistryMap) (e : Entity)
    (tKey : ConstTypeId) (v : Nat) (id : Nat) (hid : m.get tKey = some id)
    (hslot : e.components.get? id = some none) :
    ∃ e2, Entity.addComponent m e ⟨tKey, v⟩ = some (e2, some ()) ∧
      Entity.getComponent m tKey e2 = some (some v) ∧
      ∃ e3, Entity.removeComponent m tKey e2 = some (e3, some ⟨tKey, v⟩) ∧
        Entity.hasComponent m tKey e3 = some false := by
  obtain ⟨hlen, -⟩ := List.get?_eq_some.mp hslot
  have hslotE : e.components[id]? = some none := by
    rw [← List.get?_eq_getElem?]
    exact hslot
  refine ⟨⟨e.id, e.components.set id (some ⟨tKey, v⟩)⟩, ?_, ?_, ?_⟩
  · simp [Entity.addComponent, typeIdOf, hid, hslotE]
  · simp [Entity.getComponent, hid,
      getElem?_set_self e.components id (some ⟨tKey, v⟩) hlen, downcast]
  · refine ⟨⟨e.id, (e.components.set id (some ⟨tKey, v⟩)).set id none⟩, ?_, ?_⟩
    · simp [Entity.removeComponent, hid,
        getElem?_set_self e.components id (some ⟨tKey, v⟩) hlen]
    · have hlen2 : id < ((e.components.set id (some ⟨tKey, v⟩))).length := by
        rw [List.length_set]
        exact hlen
      simp [Entity.hasComponent, hid,
        getElem?_set_self (e.components.set id (some ⟨tKey, v⟩)) id none hlen2,
        getElem?_set_self e.components id none hlen]

/-- C2 witness: the round trip on a two-slot entity with Position and
Velocity registered. -/
theorem c2_witness :
    (build_component_ids posvelEntries).get posKey = some 0 ∧
    (([(none : Option DynComponent), none]).get? 0 = some none) ∧
    (∃ e2, Entity.addComponent (build_component_ids posvelEntries)
          ⟨0, [none, none]⟩ ⟨posKey, 5⟩ = some (e2, some ()) ∧
      Entity.getComponent (build_component_ids posvelEntries) posKey e2 = some (some 5) ∧
      ∃ e3, Entity.removeComponent (build_component_ids posvelEntries) posKey e2 =
          some (e3, some ⟨posKey, 5⟩) ∧
        Entity.hasComponent (build_component_ids posvelEntries) posKey e3 = some false) := by
  refine ⟨by decide, by decide, ?_⟩
  exact c2_add_get_remove_roundtrip (build_component_ids posvelEntries)
    ⟨0, [none, none]⟩ posKey 5 0 (by decide) (by decide)

/-- C3: add_component succeeds exactly when the slot for the component's
registry id exists and is empty; when the slot is occupied the call returns
the failure signal None and leaves the entity unchanged; and after a
successful add, a second add of the same type fails, writes nothing, and the
originally added value is still read back. -/
theorem c3_add_succeeds_iff_slot_empty (m : RegistryMap) (e : Entity)
    (tKey : ConstTypeId) (v : Nat) (id : Nat) (hid : m.get tKey = some id) :
    ((∃ e2, Entity.addComponent m e ⟨tKey, v⟩ = some (e2, some ())) ↔
      e.components.get? id = some none) ∧
    (∀ c0, e.components.get? id = some (some c0) →
      Entity.addComponent m e ⟨tKey, v⟩ = some (e, none)) ∧
    (∀ e2, Entity.addComponent m e ⟨tKey, v⟩ = some (e2, some ()) →
      ∀ v2, Entity.addComponent m e2 ⟨tKey, v2⟩ = some (e2, none) ∧
        Entity.getComponent m tKey e2 = some (some v)) := by
  have hkey : ∀ _ : e.components.get? id = some none,
      Entity.addComponent m e ⟨tKey, v⟩ =
        some (⟨e.id, e.components.set id (some ⟨tKey, v⟩)⟩, some ()) := by
    intro hs
    have hsE : e.components[id]? = some none := by
      rw [← List.get?_eq_getElem?]
      exact hs
    simp [Entity.addComponent, typeIdOf, hid, hsE]
  refine ⟨⟨?_, ?_⟩, ?_, ?_⟩
  · rintro ⟨e2, he⟩
    simp only [Entity.addComponent, typeIdOf, hid] at he
    cases hs : e.components.get? id with
    | none => rw [hs] at he; cases he
    | some slot =>
      cases slot with
      | none => rfl
      | some c =>
        rw [hs] at he
        simp at he
  · intro hs
    exact ⟨_, hkey hs⟩
  · intro c0 hs
    have hsE : e.components[id]? = some (some c0) := by
      rw [← List.get?_eq_getElem?]
      exact hs
    simp [Entity.addComponent, typeIdOf, hid, hsE]
  · intro e2 he v2
    have hs : e.components.get? id = some none := by
      simp only [Entity.addComponent, typeIdOf, hid] at he
      cases hs : e.components.get? id with
      | none => rw [hs] at he; cases he
      | some slot =>
        cases slot with
        | none => rfl
        | some c =>
          rw [hs] at he
          simp at he
    obtain ⟨hlen, -⟩ := List.get?_eq_some.mp hs
    have he2 : e2 = ⟨e.id, e.components.set id (some ⟨tKey, v⟩)⟩ := by
      rw [hkey hs] at he
      simp only [Option.some_inj, Prod.mk.injEq] at he
      exact he.1.symm
    subst he2
    constructor
    · simp [Entity.addComponent, typeIdOf, hid,
        getElem?_set_self e.components id (some ⟨tKey, v⟩) hlen]
    · simp [Entity.getComponent, hid,
        getElem?_set_self e.components id (some ⟨tKey, v⟩) hlen, downcast]

/-- C3 witness: on a two-slot entity the first add of a Position value
succeeds, an add onto the occupied slot fails and preserves the stored
value. -/
theorem c3_witness :
    (build_component_ids posvelEntries).get posKey = some 0 ∧
    ((∃ e2, Entity.addComponent (build_component_ids posvelEntries)
          ⟨0, [none, none]⟩ ⟨posKey, 5⟩ = some (e2, some ())) ↔
      ([(none : Option DynComponent), none]).get? 0 = some none) := by
  refine ⟨by decide, ?_⟩
  exact (c3_add_succeeds_iff_slot_empty (build_component_ids posvelEntries)
    ⟨0, [none, none]⟩ posKey 5 0 (by decide)).1

/-- C9: get_component and get_component_mut go through the Any downcast, so
they yield Some only when the boxed value stored at the type's registry slot
is dynamically of that type; a value of a different concrete type placed
there by set_component makes the lookup return None rather than a reference
of the wrong type. -/
theorem c9_downcast_type_guard (m : RegistryMap) (e : Entity)
    (tKey : ConstTypeId) (id : Nat) (hid : m.get tKey = some id) :
    (∀ v, Entity.getComponent m tKey e = some (some v) →
      ∃ c, e.components.get? id = some (some c) ∧ c.tyKey = tKey ∧ c.value = v) ∧
    (∀ v, Entity.getComponentMut m tKey e = some (some v) →
      ∃ c, e.components.get? id = some (some c) ∧ c.tyKey = tKey ∧ c.value = v) ∧
    (∀ c e2, c.tyKey ≠ tKey → Entity.setComponent e (some c) id = some e2 →
      Entity.getComponent m tKey e2 = some none ∧
        Entity.getComponentMut m tKey e2 = some none) := by
  have hget : ∀ v, Entity.getComponent m tKey e = some (some v) →
      ∃ c, e.components.get? id = some (some c) ∧ c.tyKey = tKey ∧ c.value = v := by
    intro v h
    simp only [Entity.getComponent, hid] at h
    cases hs : e.components.get? id with
    | none => rw [hs] at h; cases h
    | some slot =>
      rw [hs] at h
      cases slot with
      | none => simp at h
      | some c =>
        simp only [Option.some_bind, downcast, Option.some_inj] at h
        by_cases hc : c.tyKey = tKey
        · rw [if_pos hc] at h
          exact ⟨c, rfl, hc, Option.some_inj.mp h⟩
        · rw [if_neg hc] at h
          cases h
  refine ⟨hget, hget, ?_⟩
  intro c e2 hne hset
  simp only [Entity.setComponent] at hset
  by_cases hb : id < e.components.length
  · rw [if_pos hb] at hset
    have he2 : e2 = ⟨e.id, e.components.set id (some c)⟩ := by
      injection hset with h2
      exact h2.symm
    subst he2
    constructor
    · simp [Entity.getComponent, hid,
        getElem?_set_self e.components id (some c) hb, downcast, hne]
    · simp [Entity.getComponentMut, hid,
        getElem?_set_self e.components id (some c) hb, downcast, hne]
  · rw [if_neg hb] at hset
    cases hset

/-- C9 witness: a Velocity-typed value forced into Position's slot via
set_component is not returned by get_component of Position. -/
theorem c9_witness :
    (build_component_ids posvelEntries).get posKey = some 0 ∧
    ((⟨velKey, 9⟩ : DynComponent).tyKey ≠ posKey) ∧
    Entity.setComponent ⟨0, [none, none]⟩ (some ⟨velKey, 9⟩) 0 =
      some ⟨0, [some ⟨velKey, 9⟩, none]⟩ ∧
    Entity.getComponent (build_component_ids posvelEntries) posKey
      ⟨0, [some ⟨velKey, 9⟩, none]⟩ = some none := by
  refine ⟨by decide, by decide, by decide, ?_⟩
  exact ((c9_downcast_type_guard (build_component_ids posvelEntries)
    ⟨0, [none, none]⟩ posKey 0 (by decide)).2.2 ⟨velKey, 9⟩
    ⟨0, [some ⟨velKey, 9⟩, none]⟩ (by decide) (by decide)).1

/-- C8: two systems with honestly declared footprints whose write-sets are
disjoint from each other's read-and-write-sets produce, run concurrently
within a tick any number of times, the same final world state as run
sequentially in either order. -/
theorem c8_disjoint_footprints_commute (s1 s2 : SystemModel) (w : Nat → Nat)
    (hr1 : Respects s1) (hr2 : Respects s2)
    (h1 : s1.writes ∩ (s2.reads ∪ s2.writes) = ∅)
    (h2 : s2.writes ∩ (s1.reads ∪ s1.writes) = ∅) :
    ∀ n : Nat,
      (runConcurrent s1 s2)^[n] w = (fun u => runSystem s2 (runSystem s1 u))^[n] w ∧
      (runConcurrent s1 s2)^[n] w = (fun u => runSystem s1 (runSystem s2 u))^[n] w := by
  have hww : s1.writes ∩ s2.writes = ∅ := by
    rw [Finset.eq_empty_iff_forall_not_mem]
    intro j hj
    rw [Finset.mem_inter] at hj
    have hin : j ∈ s1.writes ∩ (s2.reads ∪ s2.writes) :=
      Finset.mem_inter.mpr ⟨hj.1, Finset.mem_union_right _ hj.2⟩
    rw [h1] at hin
    exact absurd hin (Finset.not_mem_empty j)
  have k1 := runSeq_eq_runConcurrent s1 s2 hr2 h1 h2
  have k2 := runSeq_eq_runConcurrent s2 s1 hr1 h2 h1
  have kc := runConcurrent_comm s1 s2 hww
  intro n
  constructor
  · rw [k1]
  · rw [k2, ← kc]

/-- C8 witness: a system that writes slot 0 from slot 2 and a system that
writes slot 1 from slot 2 commute over three concurrent ticks. -/
theorem c8_witness :
    Respects ⟨{2}, {0}, fun u _ => u 2 + 1⟩ ∧
    Respects ⟨{2}, {1}, fun u _ => u 2 * 2⟩ ∧
    (SystemModel.mk {2} {0} (fun u _ => u 2 + 1)).writes ∩
        ((SystemModel.mk {2} {1} (fun u _ => u 2 * 2)).reads ∪
          (SystemModel.mk {2} {1} (fun u _ => u 2 * 2)).writes) = ∅ ∧
    (SystemModel.mk {2} {1} (fun u _ => u 2 * 2)).writes ∩
        ((SystemModel.mk {2} {0} (fun u _ => u 2 + 1)).reads ∪
          (SystemModel.mk {2} {0} (fun u _ => u 2 + 1)).writes) = ∅ ∧
    (runConcurrent ⟨{2}, {0}, fun u _ => u 2 + 1⟩ ⟨{2}, {1}, fun u _ => u 2 * 2⟩)^[3]
        (fun _ => 3) =
      (fun u => runSystem ⟨{2}, {1}, fun u2 _ => u2 2 * 2⟩
        (runSystem ⟨{2}, {0}, fun u2 _ => u2 2 + 1⟩ u))^[3] (fun _ => 3) := by
  have hra : Respects ⟨{2}, {0}, fun u _ => u 2 + 1⟩ := by
    intro w1 w2 h i
    show w1 2 + 1 = w2 2 + 1
    rw [h 2 (by decide)]
  have hrb : Respects ⟨{2}, {1}, fun u _ => u 2 * 2⟩ := by
    intro w1 w2 h i
    show w1 2 * 2 = w2 2 * 2
    rw [h 2 (by decide)]
  refine ⟨hra, hrb, by decide, by decide, ?_⟩
  exact (c8_disjoint_footprints_commute ⟨{2}, {0}, fun u _ => u 2 + 1⟩
    ⟨{2}, {1}, fun u _ => u 2 * 2⟩ (fun _ => 3) hra hrb (by decide) (by decide) 3).1

end ECS
